import Mathlib

/-!
Shallow embedding of the hilang interpreter (src/src/main.rs).

The source is a tree-walking evaluator over a semantic syntax tree `AST`,
threading one runtime value (the "stream") of type `DataInterpreter` and a
global key/value store held in the `Interpreter` struct.  In the source,
`interpret` returns `Option<DataInterpreter>`: `Some v` is success, `None`
is a recoverable soft failure, and `panic!` aborts the run (a fatal fault).
Console I/O is modelled by explicit `stdin`/`stdout` line lists in the
evaluation state.  Because the `loop` built-in can diverge, the evaluator is
embedded with a fuel parameter; `Res.timeout` marks fuel exhaustion and is
not a behaviour of the source program, only of the truncated embedding.
-/

/-- Runtime values, mirroring the source enum `DataInterpreter`:
`Int(i64)`, `Str(String)`, `Void()`.  Machine integers are embedded as
`Int` with explicit range checks where the Rust arithmetic can overflow. -/
inductive DataInterpreter where
  | Int : Int → DataInterpreter
  | Str : String → DataInterpreter
  | Void : DataInterpreter
deriving DecidableEq, Repr

/-- Evaluation state: the interpreter's global `storage` map (a Rust
`HashMap<String, DataInterpreter>`, embedded as an association list where a
later `insert` shadows earlier entries), plus the console modelled as the
list of raw lines still to be read and the list of lines printed so far. -/
structure St where
  storage : List (String × DataInterpreter)
  stdin : List String
  stdout : List String
deriving DecidableEq, Repr

/-- Outcome of one evaluation: `ok v st` is the source's `Some(v)` with the
post-state, `soft st` is the source's `None` (soft failure; the state
persists), `fault` is a `panic!` (fatal fault, aborting the whole run), and
`timeout` means the embedding's fuel ran out (not a source behaviour). -/
inductive Res where
  | ok : DataInterpreter → St → Res
  | soft : St → Res
  | fault : Res
  | timeout : Res
deriving DecidableEq, Repr

/-- Semantic syntax tree, mirroring the source enum `AST`:
`Scope`, `Arrow` (the spec's Sequence), `Match` (the spec's Alternative),
`Method` (the spec's Call), `Primitive` (the spec's Name), `Literal`
(the spec's Text) and `Variable` (the spec's VarRef). -/
inductive AST where
  | Scope : AST → AST
  | Arrow : AST → AST → AST
  | Match : AST → AST → AST
  | Method : List AST → AST → AST
  | Primitive : String → AST
  | Literal : String → AST
  | Variable : String → AST

/-- Generic operator-tree node produced by the external parser
(`suzuran::Node`): placeholder, parenthesized subtree, leaf label, or a
binary operator with a label and two children. -/
inductive Node where
  | Placeholder : Node
  | Parentheses : Node → Node
  | Primitive : String → Node
  | Operator : String → Node → Node → Node

/-- First-match lookup in the storage association list; agrees with the
Rust `HashMap::get` because `insert` is embedded as shadowing cons. -/
def lookupStorage (k : String) : List (String × DataInterpreter) → Option DataInterpreter
  | [] => none
  | (k2, v) :: rest => if k2 = k then some v else lookupStorage k rest

/-- Smallest value of a 64-bit signed integer. -/
def i64Min : Int := -(2 ^ 63)

/-- Largest value of a 64-bit signed integer. -/
def i64Max : Int := 2 ^ 63 - 1

/-- Whether an integer is representable as an `i64`. -/
def fitsI64 (n : Int) : Bool := decide (i64Min ≤ n ∧ n ≤ i64Max)

/-- Value of a list of decimal digit characters. -/
def digitsToNat (l : List Char) : Nat :=
  l.foldl (fun a c => a * 10 + (c.toNat - 48)) 0

/-- Embedding of Rust `str::parse::<i64>()`: an optional single `+`/`-`
sign followed by at least one ASCII digit, whose value must fit in the
64-bit signed range; anything else fails. -/
def parseI64 (s : String) : Option Int :=
  let cs := s.data
  let signed : Int × List Char :=
    match cs with
    | '+' :: rest => (1, rest)
    | '-' :: rest => (-1, rest)
    | _ => (1, cs)
  if signed.2.isEmpty then none
  else if signed.2.all (fun c => c.isDigit) then
    let v : Int := signed.1 * (digitsToNat signed.2 : Nat)
    if i64Min ≤ v ∧ v ≤ i64Max then some v else none
  else none

/-- Embedding of Rust `char::is_whitespace`: the Unicode `White_Space`
property, namely tab, LF, VT, FF, CR, space, NEL, NBSP, the Ogham space
mark, the U+2000 to U+200A spaces, the line and paragraph separators, the
narrow no-break space, the medium mathematical space, and the ideographic
space. -/
def isRustWhitespace (c : Char) : Bool :=
  decide (c.toNat = 0x9 ∨ c.toNat = 0xA ∨ c.toNat = 0xB ∨ c.toNat = 0xC ∨
    c.toNat = 0xD ∨ c.toNat = 0x20 ∨ c.toNat = 0x85 ∨ c.toNat = 0xA0 ∨
    c.toNat = 0x1680 ∨ (0x2000 ≤ c.toNat ∧ c.toNat ≤ 0x200A) ∨
    c.toNat = 0x2028 ∨ c.toNat = 0x2029 ∨ c.toNat = 0x202F ∨
    c.toNat = 0x205F ∨ c.toNat = 0x3000)

/-- Embedding of Rust `str::trim_end()`: drop all trailing characters with
the Unicode `White_Space` property. -/
def trimEnd (s : String) : String :=
  String.mk ((s.data.reverse.dropWhile isRustWhitespace).reverse)

/-- Embedding of Rust `str::starts_with('"')` as used in `convert`: whether
the first character is a double quote. -/
def startsWithQuote (s : String) : Bool :=
  match s.data with
  | c :: _ => c = '"'
  | [] => false

/-- Embedding of Rust `str::trim_matches('"')`: drop all leading and
trailing double-quote characters. -/
def trimMatchesQuote (s : String) : String :=
  String.mk (((s.data.dropWhile (fun c => c = '"')).reverse.dropWhile (fun c => c = '"')).reverse)

/-- Embedding of the source function `convert`: maps a generic operator
tree to the semantic `AST`, or fails structurally (`Err(())` becomes
`none`).  The variable-declaration marker is handled before the generic
binary-operator mapping, exactly as in the source. -/
def convert : Node → Option AST
  | .Placeholder => none
  | .Parentheses n => (convert n).map (fun a => AST.Scope a)
  | .Primitive label =>
    if startsWithQuote label then some (AST.Literal (trimMatchesQuote label))
    else some (AST.Primitive label)
  | .Operator label n1 n2 =>
    if label = "\\" then
      match n1, n2 with
      | .Placeholder, .Primitive l => some (AST.Variable l)
      | _, _ => none
    else
      match convert n1, convert n2 with
      | some a1, some a2 =>
        match label with
        | ";" => some (AST.Arrow a1 a2)
        | "->" => some (AST.Arrow a1 a2)
        | "<-" => some (AST.Arrow a2 a1)
        | "|" => some (AST.Match a1 a2)
        | "." => some (AST.Method [a1] a2)
        | _ => some (AST.Method [a1, a2] (AST.Primitive label))
      | _, _ => none

/-- Embedding of the source `interpret_literal`: a literal succeeds with
`Str(contents)` only when the stream is `Void` and the operand list is
empty; otherwise it is a fatal fault. -/
def interpretLiteral (args : List AST) (contents : String) (stream : DataInterpreter)
    (st : St) : Res :=
  if stream = DataInterpreter.Void ∧ args.isEmpty then .ok (.Str contents) st else .fault

mutual

/-- Embedding of the source `Interpreter::interpret`, with a fuel
parameter added so the (possibly diverging) evaluation is total.  Every
recursive call runs at the predecessor fuel; any terminating run of the
source is reproduced exactly at every sufficiently large fuel. -/
def interpret : Nat → List AST → AST → DataInterpreter → St → Res
  | 0, _, _, _, _ => .timeout
  | fuel + 1, args, ast, stream, st =>
    match ast with
    | .Scope obj => interpret fuel args obj stream st
    | .Arrow o1 o2 =>
      match interpret fuel args o1 stream st with
      | .ok v st2 => interpret fuel args o2 v st2
      | r => r
    | .Match o1 o2 =>
      match interpret fuel args o1 stream st with
      | .soft st2 => interpret fuel args o2 stream st2
      | r => r
    | .Method margs obj => interpret fuel margs obj stream st
    | .Primitive label => interpretPrimitive fuel args label stream st
    | .Variable _ => .fault
    | .Literal contents => interpretLiteral args contents stream st

/-- Embedding of the source `Interpreter::interpret_primitive`.  The Rust
`match label` if-chain is kept in source order; the `while let` loop of the
`loop` built-in becomes self-recursion at the predecessor fuel.  Rust debug
arithmetic is embedded faithfully: `+ - *` panic (fault) when the exact
result leaves the `i64` range, and `%` panics on a zero divisor or on
`i64::MIN % -1`, and otherwise truncates toward zero (`Int.tmod`). -/
def interpretPrimitive : Nat → List AST → String → DataInterpreter → St → Res
  | 0, _, _, _, _ => .timeout
  | fuel + 1, args, label, stream, st =>
    if label = "int" then
      match stream with
      | .Int i => .ok (.Int i) st
      | .Str s =>
        match parseI64 s with
        | some i => .ok (.Int i) st
        | none => .soft st
      | .Void => .fault
    else if label = "str" then
      match stream with
      | .Int i => .ok (.Str (toString i)) st
      | .Str s => .ok (.Str s) st
      | .Void => .fault
    else if label = "output" then
      match stream with
      | .Int i => .ok .Void { st with stdout := st.stdout ++ [toString i] }
      | .Str s => .ok .Void { st with stdout := st.stdout ++ [s] }
      | .Void => .fault
    else if label = "input" then
      match stream with
      | .Void =>
        match st.stdin with
        | [] => .ok (.Str "") st
        | line :: rest => .ok (.Str (trimEnd line)) { st with stdin := rest }
      | _ => .fault
    else if label = "store" then
      match args with
      | a0 :: _ =>
        match interpret fuel [] a0 .Void st with
        | .ok (.Str key) st2 => .ok .Void { st2 with storage := (key, stream) :: st2.storage }
        | .timeout => .timeout
        | _ => .fault
      | [] => .fault
    else if label = "load" then
      match stream with
      | .Void =>
        match args with
        | a0 :: _ =>
          match interpret fuel [] a0 .Void st with
          | .ok (.Str key) st2 =>
            match lookupStorage key st2.storage with
            | some v => .ok v st2
            | none => .soft st2
          | .timeout => .timeout
          | _ => .fault
        | [] => .fault
      | _ => .fault
    else if label = "+" ∨ label = "-" ∨ label = "*" ∨ label = "%" ∨
        label = "==" ∨ label = "!=" ∨ label = "=<" ∨ label = "<" then
      match args with
      | a0 :: a1 :: _ =>
        match interpret fuel [] a0 .Void st with
        | .ok o1 st1 =>
          match interpret fuel [] a1 .Void st1 with
          | .ok o2 st2 =>
            match o1, o2 with
            | .Int i1, .Int i2 =>
              if label = "+" then
                if fitsI64 (i1 + i2) then .ok (.Int (i1 + i2)) st2 else .fault
              else if label = "-" then
                if fitsI64 (i1 - i2) then .ok (.Int (i1 - i2)) st2 else .fault
              else if label = "*" then
                if fitsI64 (i1 * i2) then .ok (.Int (i1 * i2)) st2 else .fault
              else if label = "%" then
                if i2 = 0 ∨ (i1 = i64Min ∧ i2 = -1) then .fault
                else .ok (.Int (Int.tmod i1 i2)) st2
              else if label = "==" then
                if i1 = i2 then .ok .Void st2 else .soft st2
              else if label = "!=" then
                if ¬ i1 = i2 then .ok .Void st2 else .soft st2
              else if label = "=<" then
                if i1 ≤ i2 then .ok .Void st2 else .soft st2
              else if label = "<" then
                if i1 < i2 then .ok .Void st2 else .soft st2
              else .fault
            | _, _ => .fault
          | .soft st2 => .soft st2
          | .fault => .fault
          | .timeout => .timeout
        | .soft st1 => .soft st1
        | .fault => .fault
        | .timeout => .timeout
      | _ => .fault
    else if label = "loop" then
      match args with
      | a0 :: _ =>
        match interpret fuel [] a0 stream st with
        | .ok v st2 => interpretPrimitive fuel args "loop" v st2
        | r => r
      | [] => .fault
    else if label = "pass" then .ok stream st
    else .fault

end

/-- The empty evaluation state: empty store, no console input, no output. -/
def st0 : St := ⟨[], [], []⟩

/-- The tree `"k".store`: a `Call` whose single operand is the text literal
`k` and whose callee is the `store` built-in. -/
def storeCall (k : String) : AST := AST.Method [AST.Literal k] (AST.Primitive "store")

/-- The tree `"k".load`: a `Call` whose single operand is the text literal
`k` and whose callee is the `load` built-in. -/
def loadCall (k : String) : AST := AST.Method [AST.Literal k] (AST.Primitive "load")

/-- The tree `body.loop`: a `Call` whose single operand is the loop body
and whose callee is the `loop` built-in. -/
def loopCall (body : AST) : AST := AST.Method [body] (AST.Primitive "loop")

/-- The idiomatic construct `Alternative(loop(body), pass)`. -/
def altLoopPass (body : AST) : AST := AST.Match (loopCall body) (AST.Primitive "pass")

/-- The tree `"n" -> int`: an integer literal expression, as programs in
this language write integer constants. -/
def intLit (n : Int) : AST := AST.Arrow (AST.Literal (toString n)) (AST.Primitive "int")

mutual

/-- Syntactic absence of the `store` built-in anywhere in a tree,
including inside `Call` operand lists. -/
def noStore : AST → Bool
  | .Scope a => noStore a
  | .Arrow a b => noStore a && noStore b
  | .Match a b => noStore a && noStore b
  | .Method margs obj => noStoreList margs && noStore obj
  | .Primitive l => decide (¬ l = "store")
  | .Literal _ => true
  | .Variable _ => true

/-- `noStore` over every tree of a list. -/
def noStoreList : List AST → Bool
  | [] => true
  | a :: rest => noStore a && noStoreList rest

end

/-- Whether an outcome's store (when the outcome carries one) equals the
given pre-state's store. -/
def storagePreserved (r : Res) (st : St) : Bool :=
  match r with
  | .ok _ st2 => decide (st2.storage = st.storage)
  | .soft st2 => decide (st2.storage = st.storage)
  | .fault => true
  | .timeout => true

theorem iP_int (f : Nat) (args : List AST) (s : DataInterpreter) (st : St) :
    interpretPrimitive (f + 1) args "int" s st
      = match s with
        | .Int i => .ok (.Int i) st
        | .Str s2 =>
          match parseI64 s2 with
          | some i => .ok (.Int i) st
          | none => .soft st
        | .Void => .fault := rfl

theorem iP_str (f : Nat) (args : List AST) (s : DataInterpreter) (st : St) :
    interpretPrimitive (f + 1) args "str" s st
      = match s with
        | .Int i => .ok (.Str (toString i)) st
        | .Str s2 => .ok (.Str s2) st
        | .Void => .fault := rfl

theorem iP_output (f : Nat) (args : List AST) (s : DataInterpreter) (st : St) :
    interpretPrimitive (f + 1) args "output" s st
      = match s with
        | .Int i => .ok .Void { st with stdout := st.stdout ++ [toString i] }
        | .Str s2 => .ok .Void { st with stdout := st.stdout ++ [s2] }
        | .Void => .fault := rfl

theorem iP_input (f : Nat) (args : List AST) (s : DataInterpreter) (st : St) :
    interpretPrimitive (f + 1) args "input" s st
      = match s with
        | .Void =>
          match st.stdin with
          | [] => .ok (.Str "") st
          | line :: rest => .ok (.Str (trimEnd line)) { st with stdin := rest }
        | _ => .fault := rfl

theorem iP_store (f : Nat) (a0 : AST) (rest : List AST) (s : DataInterpreter) (st : St) :
    interpretPrimitive (f + 1) (a0 :: rest) "store" s st
      = match interpret f [] a0 .Void st with
        | .ok (.Str key) st2 => .ok .Void { st2 with storage := (key, s) :: st2.storage }
        | .timeout => .timeout
        | _ => .fault := rfl

theorem iP_load (f : Nat) (a0 : AST) (rest : List AST) (st : St) :
    interpretPrimitive (f + 1) (a0 :: rest) "load" .Void st
      = match interpret f [] a0 .Void st with
        | .ok (.Str key) st2 =>
          match lookupStorage key st2.storage with
          | some v => .ok v st2
          | none => .soft st2
        | .timeout => .timeout
        | _ => .fault := rfl

theorem iP_loop (f : Nat) (a0 : AST) (rest : List AST) (s : DataInterpreter) (st : St) :
    interpretPrimitive (f + 1) (a0 :: rest) "loop" s st
      = match interpret f [] a0 s st with
        | .ok v st2 => interpretPrimitive f (a0 :: rest) "loop" v st2
        | r => r := rfl

theorem iP_pass (f : Nat) (args : List AST) (s : DataInterpreter) (st : St) :
    interpretPrimitive (f + 1) args "pass" s st = .ok s st := rfl

theorem iP_add (f : Nat) (a0 a1 : AST) (rest : List AST) (s : DataInterpreter) (st : St) :
    interpretPrimitive (f + 1) (a0 :: a1 :: rest) "+" s st
      = match interpret f [] a0 .Void st with
        | .ok o1 st1 =>
          match interpret f [] a1 .Void st1 with
          | .ok o2 st2 =>
            match o1, o2 with
            | .Int i1, .Int i2 =>
              if fitsI64 (i1 + i2) then .ok (.Int (i1 + i2)) st2 else .fault
            | _, _ => .fault
          | .soft st2 => .soft st2
          | .fault => .fault
          | .timeout => .timeout
        | .soft st1 => .soft st1
        | .fault => .fault
        | .timeout => .timeout := rfl

theorem iP_sub (f : Nat) (a0 a1 : AST) (rest : List AST) (s : DataInterpreter) (st : St) :
    interpretPrimitive (f + 1) (a0 :: a1 :: rest) "-" s st
      = match interpret f [] a0 .Void st with
        | .ok o1 st1 =>
          match interpret f [] a1 .Void st1 with
          | .ok o2 st2 =>
            match o1, o2 with
            | .Int i1, .Int i2 =>
              if fitsI64 (i1 - i2) then .ok (.Int (i1 - i2)) st2 else .fault
            | _, _ => .fault
          | .soft st2 => .soft st2
          | .fault => .fault
          | .timeout => .timeout
        | .soft st1 => .soft st1
        | .fault => .fault
        | .timeout => .timeout := rfl

theorem iP_mul (f : Nat) (a0 a1 : AST) (rest : List AST) (s : DataInterpreter) (st : St) :
    interpretPrimitive (f + 1) (a0 :: a1 :: rest) "*" s st
      = match interpret f [] a0 .Void st with
        | .ok o1 st1 =>
          match interpret f [] a1 .Void st1 with
          | .ok o2 st2 =>
            match o1, o2 with
            | .Int i1, .Int i2 =>
              if fitsI64 (i1 * i2) then .ok (.Int (i1 * i2)) st2 else .fault
            | _, _ => .fault
          | .soft st2 => .soft st2
          | .fault => .fault
          | .timeout => .timeout
        | .soft st1 => .soft st1
        | .fault => .fault
        | .timeout => .timeout := rfl

theorem iP_mod (f : Nat) (a0 a1 : AST) (rest : List AST) (s : DataInterpreter) (st : St) :
    interpretPrimitive (f + 1) (a0 :: a1 :: rest) "%" s st
      = match interpret f [] a0 .Void st with
        | .ok o1 st1 =>
          match interpret f [] a1 .Void st1 with
          | .ok o2 st2 =>
            match o1, o2 with
            | .Int i1, .Int i2 =>
              if i2 = 0 ∨ (i1 = i64Min ∧ i2 = -1) then .fault
              else .ok (.Int (Int.tmod i1 i2)) st2
            | _, _ => .fault
          | .soft st2 => .soft st2
          | .fault => .fault
          | .timeout => .timeout
        | .soft st1 => .soft st1
        | .fault => .fault
        | .timeout => .timeout := rfl

theorem iP_eqOp (f : Nat) (a0 a1 : AST) (rest : List AST) (s : DataInterpreter) (st : St) :
    interpretPrimitive (f + 1) (a0 :: a1 :: rest) "==" s st
      = match interpret f [] a0 .Void st with
        | .ok o1 st1 =>
          match interpret f [] a1 .Void st1 with
          | .ok o2 st2 =>
            match o1, o2 with
            | .Int i1, .Int i2 => if i1 = i2 then .ok .Void st2 else .soft st2
            | _, _ => .fault
          | .soft st2 => .soft st2
          | .fault => .fault
          | .timeout => .timeout
        | .soft st1 => .soft st1
        | .fault => .fault
        | .timeout => .timeout := rfl

theorem iP_neOp (f : Nat) (a0 a1 : AST) (rest : List AST) (s : DataInterpreter) (st : St) :
    interpretPrimitive (f + 1) (a0 :: a1 :: rest) "!=" s st
      = match interpret f [] a0 .Void st with
        | .ok o1 st1 =>
          match interpret f [] a1 .Void st1 with
          | .ok o2 st2 =>
            match o1, o2 with
            | .Int i1, .Int i2 => if ¬ i1 = i2 then .ok .Void st2 else .soft st2
            | _, _ => .fault
          | .soft st2 => .soft st2
          | .fault => .fault
          | .timeout => .timeout
        | .soft st1 => .soft st1
        | .fault => .fault
        | .timeout => .timeout := rfl

theorem iP_leOp (f : Nat) (a0 a1 : AST) (rest : List AST) (s : DataInterpreter) (st : St) :
    interpretPrimitive (f + 1) (a0 :: a1 :: rest) "=<" s st
      = match interpret f [] a0 .Void st with
        | .ok o1 st1 =>
          match interpret f [] a1 .Void st1 with
          | .ok o2 st2 =>
            match o1, o2 with
            | .Int i1, .Int i2 => if i1 ≤ i2 then .ok .Void st2 else .soft st2
            | _, _ => .fault
          | .soft st2 => .soft st2
          | .fault => .fault
          | .timeout => .timeout
        | .soft st1 => .soft st1
        | .fault => .fault
        | .timeout => .timeout := rfl

theorem iP_ltOp (f : Nat) (a0 a1 : AST) (rest : List AST) (s : DataInterpreter) (st : St) :
    interpretPrimitive (f + 1) (a0 :: a1 :: rest) "<" s st
      = match interpret f [] a0 .Void st with
        | .ok o1 st1 =>
          match interpret f [] a1 .Void st1 with
          | .ok o2 st2 =>
            match o1, o2 with
            | .Int i1, .Int i2 => if i1 < i2 then .ok .Void st2 else .soft st2
            | _, _ => .fault
          | .soft st2 => .soft st2
          | .fault => .fault
          | .timeout => .timeout
        | .soft st1 => .soft st1
        | .fault => .fault
        | .timeout => .timeout := rfl

theorem storagePreserved_trans (r : Res) (st2 st : St) (h2 : st2.storage = st.storage)
    (h : storagePreserved r st2 = true) : storagePreserved r st = true := by
  cases r <;> simp_all [storagePreserved]

theorem preserve_main (fuel : Nat) :
    (∀ args ast s st, noStore ast = true → noStoreList args = true →
      storagePreserved (interpret fuel args ast s st) st = true)
    ∧ (∀ args label s st, ¬ label = "store" → noStoreList args = true →
      storagePreserved (interpretPrimitive fuel args label s st) st = true) := by
  induction fuel with
  | zero => exact ⟨fun _ _ _ _ _ _ => rfl, fun _ _ _ _ _ _ => rfl⟩
  | succ f ih =>
    obtain ⟨ihI, ihP⟩ := ih
    constructor
    · intro args ast s st hA hL
      cases ast with
      | Scope obj => exact ihI args obj s st hA hL
      | Arrow o1 o2 =>
        simp only [noStore, Bool.and_eq_true] at hA
        simp only [interpret]
        cases hr : interpret f args o1 s st with
        | ok v st2 =>
          simp only
          have p1 := ihI args o1 s st hA.1 hL
          rw [hr] at p1
          simp only [storagePreserved, decide_eq_true_eq] at p1
          exact storagePreserved_trans _ _ _ p1 (ihI args o2 v st2 hA.2 hL)
        | soft st2 =>
          have p1 := ihI args o1 s st hA.1 hL
          rw [hr] at p1
          exact p1
        | fault => rfl
        | timeout => rfl
      | Match o1 o2 =>
        simp only [noStore, Bool.and_eq_true] at hA
        simp only [interpret]
        cases hr : interpret f args o1 s st with
        | soft st2 =>
          simp only
          have p1 := ihI args o1 s st hA.1 hL
          rw [hr] at p1
          simp only [storagePreserved, decide_eq_true_eq] at p1
          exact storagePreserved_trans _ _ _ p1 (ihI args o2 s st2 hA.2 hL)
        | ok v st2 =>
          have p1 := ihI args o1 s st hA.1 hL
          rw [hr] at p1
          exact p1
        | fault => rfl
        | timeout => rfl
      | Method margs obj =>
        simp only [noStore, Bool.and_eq_true] at hA
        exact ihI margs obj s st hA.2 hA.1
      | Primitive l =>
        simp only [noStore, decide_eq_true_eq] at hA
        exact ihP args l s st hA hL
      | Variable l => rfl
      | Literal c =>
        simp only [interpret, interpretLiteral]
        split
        · simp [storagePreserved]
        · rfl
    · intro args label s st hl hL
      rcases eq_or_ne label "int" with rfl | h1
      · rw [iP_int]
        cases s with
        | Int i => simp [storagePreserved]
        | Str s2 => cases hp : parseI64 s2 <;> simp [hp, storagePreserved]
        | Void => rfl
      rcases eq_or_ne label "str" with rfl | h2
      · rw [iP_str]
        cases s <;> simp [storagePreserved]
      rcases eq_or_ne label "output" with rfl | h3
      · rw [iP_output]
        cases s <;> simp [storagePreserved]
      rcases eq_or_ne label "input" with rfl | h4
      · rw [iP_input]
        cases s with
        | Void => cases hst : st.stdin <;> simp [hst, storagePreserved]
        | Int i => simp [storagePreserved]
        | Str s2 => simp [storagePreserved]
      rcases eq_or_ne label "store" with rfl | h5
      · exact absurd rfl hl
      rcases eq_or_ne label "load" with rfl | h6
      · cases s with
        | Void =>
          cases args with
          | nil => rfl
          | cons a0 rest =>
            simp only [noStoreList, Bool.and_eq_true] at hL
            rw [iP_load]
            have p := ihI [] a0 .Void st hL.1 rfl
            cases hr : interpret f [] a0 .Void st with
            | ok w st2 =>
              rw [hr] at p
              simp only [storagePreserved, decide_eq_true_eq] at p
              cases w with
              | Str key =>
                cases hl2 : lookupStorage key st2.storage <;>
                  simp only [hl2] <;> simp [storagePreserved, p]
              | Int i => rfl
              | Void => rfl
            | soft st2 => rfl
            | fault => rfl
            | timeout => rfl
        | Int i => rfl
        | Str s2 => rfl
      by_cases h7 : label = "+" ∨ label = "-" ∨ label = "*" ∨ label = "%" ∨
          label = "==" ∨ label = "!=" ∨ label = "=<" ∨ label = "<"
      · rcases h7 with rfl | rfl | rfl | rfl | rfl | rfl | rfl | rfl <;>
        · cases args with
          | nil => rfl
          | cons a0 rest1 =>
            cases rest1 with
            | nil => rfl
            | cons a1 rest =>
              simp only [noStoreList, Bool.and_eq_true] at hL
              simp only [iP_add, iP_sub, iP_mul, iP_mod, iP_eqOp, iP_neOp, iP_leOp, iP_ltOp]
              have p0 := ihI [] a0 .Void st hL.1 rfl
              cases hr0 : interpret f [] a0 .Void st with
              | ok o1 st1 =>
                rw [hr0] at p0
                simp only [storagePreserved, decide_eq_true_eq] at p0
                simp only [hr0]
                have p1 := ihI [] a1 .Void st1 hL.2.1 rfl
                cases hr1 : interpret f [] a1 .Void st1 with
                | ok o2 st2 =>
                  rw [hr1] at p1
                  simp only [storagePreserved, decide_eq_true_eq] at p1
                  have p2 : st2.storage = st.storage := p1.trans p0
                  simp only [hr1]
                  cases o1 with
                  | Int i1 =>
                    cases o2 with
                    | Int i2 =>
                      simp only
                      split_ifs <;> simp [storagePreserved, p2]
                    | Str s2 => rfl
                    | Void => rfl
                  | Str s1 => cases o2 <;> rfl
                  | Void => cases o2 <;> rfl
                | soft st2 =>
                  rw [hr1] at p1
                  simp only [storagePreserved, decide_eq_true_eq] at p1
                  simp [hr1, storagePreserved, p1.trans p0]
                | fault => rfl
                | timeout => rfl
              | soft st1 =>
                rw [hr0] at p0
                exact p0
              | fault => rfl
              | timeout => rfl
      rcases eq_or_ne label "loop" with rfl | h8
      · cases args with
        | nil => rfl
        | cons a0 rest =>
          simp only [noStoreList, Bool.and_eq_true] at hL
          rw [iP_loop]
          have p := ihI [] a0 s st hL.1 rfl
          cases hr : interpret f [] a0 s st with
          | ok v st2 =>
            rw [hr] at p
            simp only [storagePreserved, decide_eq_true_eq] at p
            simp only [hr]
            have q := ihP (a0 :: rest) "loop" v st2 (by decide)
              (by simp only [noStoreList, Bool.and_eq_true]; exact hL)
            exact storagePreserved_trans _ _ _ p q
          | soft st2 =>
            rw [hr] at p
            exact p
          | fault => rfl
          | timeout => rfl
      rcases eq_or_ne label "pass" with rfl | h9
      · rw [iP_pass]
        simp [storagePreserved]
      · simp only [interpretPrimitive]
        rw [if_neg h1, if_neg h2, if_neg h3, if_neg h4, if_neg hl, if_neg h6, if_neg h7,
          if_neg h8, if_neg h9]
        rfl

theorem loop_ne_ok (fuel : Nat) :
    ∀ args s st v st2, interpretPrimitive fuel args "loop" s st ≠ .ok v st2 := by
  induction fuel with
  | zero => intro args s st v st2; simp [interpretPrimitive]
  | succ f ih =>
    intro args s st v st2
    simp only [interpretPrimitive]
    cases args with
    | nil => simp
    | cons a0 rest =>
      cases h : interpret f [] a0 s st with
      | ok w st3 => simp [h]; exact ih (a0 :: rest) w st3 v st2
      | soft st3 => simp [h]
      | fault => simp [h]
      | timeout => simp [h]

/-- Claim C1: the `loop` built-in re-evaluates its operand, feeding each
iteration's result to the next iteration, until an iteration soft-fails; a
`loop` node never succeeds at any fuel; and when the loop terminates
(softly), `Alternative(loop(body), pass)` succeeds with the stream value as
it stood before the loop began. -/
theorem loop_always_soft_fails (fuel : Nat) (args : List AST) (body : AST)
    (s : DataInterpreter) (st : St) :
    (∀ f v st2, interpret f args (loopCall body) s st ≠ .ok v st2)
    ∧ interpret (fuel + 2) args (loopCall body) s st = interpretPrimitive fuel [body] "loop" s st
    ∧ (interpretPrimitive (fuel + 1) [body] "loop" s st
        = match interpret fuel [] body s st with
          | .ok v st2 => interpretPrimitive fuel [body] "loop" v st2
          | r => r)
    ∧ (∀ st2, interpret (fuel + 2) args (loopCall body) s st = .soft st2 →
        interpret (fuel + 3) args (altLoopPass body) s st = .ok s st2) := by
  refine ⟨?_, ?_, ?_, fun st2 h => ?_⟩
  · intro f v st2
    match f with
    | 0 => simp [interpret]
    | 1 => simp [interpret, loopCall]
    | f + 2 =>
      have hd : interpret (f + 2) args (loopCall body) s st
          = interpretPrimitive f [body] "loop" s st := by
        simp [interpret, loopCall]
      rw [hd]
      exact loop_ne_ok f [body] s st v st2
  · simp [interpret, loopCall]
  · simp only [interpretPrimitive]
    simp
  · simp [interpret, altLoopPass, interpretPrimitive] at h ⊢
    simp [h]

/-- Witness for C1: with the body `"k".load` over an empty store, the loop
soft-fails after one iteration, and `Alternative(loop(body), pass)` then
succeeds with the pre-loop stream value. -/
theorem loop_always_soft_fails_witness :
    interpret 8 [] (loopCall (loadCall "k")) .Void st0 = .soft st0
    ∧ interpret 9 [] (altLoopPass (loadCall "k")) .Void st0 = .ok .Void st0 :=
  ⟨by decide, (loop_always_soft_fails 6 [] (loadCall "k") .Void st0).2.2.2 st0 (by decide)⟩

/-- Claim C2: Alternative evaluates branch a against the incoming stream;
if a succeeds its result is the whole node's result (independently of b);
exactly when a soft-fails, b is then evaluated against the same original
stream value; and a fatal fault of a aborts the node. -/
theorem alternative_branch_semantics (fuel : Nat) (args : List AST) (a b : AST)
    (s : DataInterpreter) (st : St) :
    (∀ v st2, interpret fuel args a s st = .ok v st2 →
      interpret (fuel + 1) args (AST.Match a b) s st = .ok v st2)
    ∧ (∀ st2, interpret fuel args a s st = .soft st2 →
      interpret (fuel + 1) args (AST.Match a b) s st = interpret fuel args b s st2)
    ∧ (interpret fuel args a s st = .fault →
      interpret (fuel + 1) args (AST.Match a b) s st = .fault) := by
  refine ⟨fun v st2 h => ?_, fun st2 h => ?_, fun h => ?_⟩ <;> simp [interpret, h]

/-- Witness for C2: `pass` succeeds with the stream, so the second branch
is irrelevant and its result is the whole node's result. -/
theorem alternative_branch_semantics_witness :
    interpret 3 [] (AST.Match (AST.Primitive "pass") (AST.Primitive "output")) (.Int 1) st0
      = .ok (.Int 1) st0 :=
  (alternative_branch_semantics 2 [] (AST.Primitive "pass") (AST.Primitive "output")
    (.Int 1) st0).1 (.Int 1) st0 (by decide)

/-- Claim C3: store mutations are not rolled back by Alternative: when
branch a soft-fails with post-state st2, branch b runs against exactly that
state (so every entry a stored is present) while only the stream value is
reset to the original; concretely, a branch that stores under key `k` and
then soft-fails leaves `("k", value)` in the store observable after the
fallback branch completes. -/
theorem alternative_store_not_rolled_back (fuel : Nat) (args : List AST) (a b : AST)
    (s : DataInterpreter) (st : St) :
    (∀ st2, interpret fuel args a s st = .soft st2 →
      interpret (fuel + 1) args (AST.Match a b) s st = interpret fuel args b s st2)
    ∧ interpret 7 [] (AST.Match (AST.Arrow (storeCall "k") (loadCall "m")) (AST.Primitive "pass"))
        (.Int 7) st0 = .ok (.Int 7) ⟨[("k", .Int 7)], [], []⟩ := by
  refine ⟨fun st2 h => ?_, by decide⟩
  simp [interpret, h]

/-- Witness for C3: a failing `load` branch hands its (here unchanged)
post-state to the fallback branch, which sees the original stream. -/
theorem alternative_store_not_rolled_back_witness :
    interpret 5 [] (AST.Match (loadCall "zz") (AST.Primitive "pass")) .Void st0
      = interpret 4 [] (AST.Primitive "pass") .Void st0 :=
  (alternative_store_not_rolled_back 4 [] (loadCall "zz") (AST.Primitive "pass")
    .Void st0).1 st0 (by decide)

/-- Counterexample to claim C4 as stated: the claim says the arithmetic
built-ins always succeed and never fault, but `1 % 0` is a fatal fault in
the code (Rust panics on a zero divisor), not a success with an Integer. -/
theorem arith_never_faults_cex :
    interpret 7 [] (AST.Method [intLit 1, intLit 0] (AST.Primitive "%")) .Void st0 = .fault
    ∧ interpret 7 [] (AST.Method [intLit 1, intLit 0] (AST.Primitive "%")) .Void st0
      ≠ .ok (.Int (Int.tmod 1 0)) st0 := by
  constructor <;> decide

/-- Claim C4 (amended): for operands evaluating to 64-bit integers a and b,
`+ - *` succeed with the exact mathematical result whenever it fits the
64-bit signed range (and fault otherwise, as Rust debug overflow panics),
and `%` succeeds with the truncated remainder whenever b is nonzero and the
operation does not overflow, while a zero divisor is a fatal fault. -/
theorem arith_builtins_checked (fuel : Nat) (args : List AST) (a0 a1 : AST)
    (s : DataInterpreter) (st st1 st2 : St) (i1 i2 : Int)
    (h0 : interpret fuel [] a0 .Void st = .ok (.Int i1) st1)
    (h1 : interpret fuel [] a1 .Void st1 = .ok (.Int i2) st2) :
    (fitsI64 (i1 + i2) = true →
      interpretPrimitive (fuel + 1) (a0 :: a1 :: args) "+" s st = .ok (.Int (i1 + i2)) st2)
    ∧ (fitsI64 (i1 - i2) = true →
      interpretPrimitive (fuel + 1) (a0 :: a1 :: args) "-" s st = .ok (.Int (i1 - i2)) st2)
    ∧ (fitsI64 (i1 * i2) = true →
      interpretPrimitive (fuel + 1) (a0 :: a1 :: args) "*" s st = .ok (.Int (i1 * i2)) st2)
    ∧ (¬ i2 = 0 → ¬(i1 = i64Min ∧ i2 = -1) →
      interpretPrimitive (fuel + 1) (a0 :: a1 :: args) "%" s st = .ok (.Int (Int.tmod i1 i2)) st2)
    ∧ (i2 = 0 → interpretPrimitive (fuel + 1) (a0 :: a1 :: args) "%" s st = .fault) := by
  refine ⟨fun hf => ?_, fun hf => ?_, fun hf => ?_, fun hz hm => ?_, fun hz => ?_⟩ <;>
    simp [interpretPrimitive, h0, h1, *]

/-- Witness for C4: `2 + 3` evaluates to 5 and `7 % 2` to 1. -/
theorem arith_builtins_checked_witness :
    interpret 3 [] (intLit 2) .Void st0 = .ok (.Int 2) st0
    ∧ interpretPrimitive 4 [intLit 2, intLit 3] "+" .Void st0 = .ok (.Int 5) st0
    ∧ interpretPrimitive 4 [intLit 7, intLit 2] "%" .Void st0 = .ok (.Int 1) st0 := by
  have hp := (arith_builtins_checked 3 [] (intLit 2) (intLit 3) .Void st0 st0 st0 2 3
    (by decide) (by decide)).1 (by decide)
  have hm := (arith_builtins_checked 3 [] (intLit 7) (intLit 2) .Void st0 st0 st0 7 2
    (by decide) (by decide)).2.2.2.1 (by decide) (by decide)
  refine ⟨by decide, by simpa using hp, by simpa using hm⟩

/-- Claim C5: when both operands evaluate to Integers a and b, the
comparison built-ins succeed with Empty exactly when the corresponding
relation holds and soft-fail otherwise; when the operands evaluate but are
not both Integers, every comparison is a fatal fault. -/
theorem comparison_builtins (fuel : Nat) (args : List AST) (a0 a1 : AST)
    (s : DataInterpreter) (st : St) :
    (∀ st1 st2 i1 i2, interpret fuel [] a0 .Void st = .ok (.Int i1) st1 →
      interpret fuel [] a1 .Void st1 = .ok (.Int i2) st2 →
      (interpretPrimitive (fuel + 1) (a0 :: a1 :: args) "==" s st
          = if i1 = i2 then .ok .Void st2 else .soft st2)
      ∧ (interpretPrimitive (fuel + 1) (a0 :: a1 :: args) "!=" s st
          = if ¬ i1 = i2 then .ok .Void st2 else .soft st2)
      ∧ (interpretPrimitive (fuel + 1) (a0 :: a1 :: args) "=<" s st
          = if i1 ≤ i2 then .ok .Void st2 else .soft st2)
      ∧ (interpretPrimitive (fuel + 1) (a0 :: a1 :: args) "<" s st
          = if i1 < i2 then .ok .Void st2 else .soft st2))
    ∧ (∀ st1 st2 w1 w2, interpret fuel [] a0 .Void st = .ok w1 st1 →
      interpret fuel [] a1 .Void st1 = .ok w2 st2 →
      (∀ j1 j2, ¬(w1 = .Int j1 ∧ w2 = .Int j2)) →
      interpretPrimitive (fuel + 1) (a0 :: a1 :: args) "==" s st = .fault
      ∧ interpretPrimitive (fuel + 1) (a0 :: a1 :: args) "!=" s st = .fault
      ∧ interpretPrimitive (fuel + 1) (a0 :: a1 :: args) "=<" s st = .fault
      ∧ interpretPrimitive (fuel + 1) (a0 :: a1 :: args) "<" s st = .fault) := by
  constructor
  · intro st1 st2 i1 i2 h0 h1
    refine ⟨?_, ?_, ?_, ?_⟩ <;> simp [interpretPrimitive, h0, h1]
  · intro st1 st2 w1 w2 h0 h1 hni
    refine ⟨?_, ?_, ?_, ?_⟩ <;>
      · simp only [interpretPrimitive]
        cases w1 with
        | Int i1 =>
          cases w2 with
          | Int i2 => exact absurd ⟨rfl, rfl⟩ (hni i1 i2)
          | Str s2 => simp [h0, h1]
          | Void => simp [h0, h1]
        | Str s1 => simp [h0, h1]
        | Void => simp [h0, h1]

/-- Witness for C5: `1 < 2` succeeds with Empty. -/
theorem comparison_builtins_witness :
    interpret 3 [] (intLit 1) .Void st0 = .ok (.Int 1) st0
    ∧ interpretPrimitive 4 [intLit 1, intLit 2] "<" .Void st0 = .ok .Void st0 := by
  have h := ((comparison_builtins 3 [] (intLit 1) (intLit 2) .Void st0).1 st0 st0 1 2
    (by decide) (by decide)).2.2.2
  exact ⟨by decide, by simpa using h⟩

/-- Claim C6: storing under key k with stream value v writes the pair into
the store and returns Empty; loading k from that store succeeds with
exactly v; the store-then-load composition round-trips v; and loading a
key absent from the store soft-fails rather than faulting. -/
theorem store_load_roundtrip (g : Nat) (k : String) (v : DataInterpreter) (st : St) :
    interpret (g + 4) [] (storeCall k) v st
      = .ok .Void { st with storage := (k, v) :: st.storage }
    ∧ interpret (g + 4) [] (loadCall k) .Void { st with storage := (k, v) :: st.storage }
      = .ok v { st with storage := (k, v) :: st.storage }
    ∧ interpret (g + 5) [] (AST.Arrow (storeCall k) (loadCall k)) v st
      = .ok v { st with storage := (k, v) :: st.storage }
    ∧ (∀ k2, lookupStorage k2 st.storage = none →
        interpret (g + 4) [] (loadCall k2) .Void st = .soft st)
    ∧ (∀ a0 rest st2, interpret g [] a0 .Void st = .ok (.Str k) st2 →
        interpretPrimitive (g + 1) (a0 :: rest) "store" v st
          = .ok .Void { st2 with storage := (k, v) :: st2.storage })
    ∧ (∀ a0 rest st2, interpret g [] a0 .Void st = .ok (.Str k) st2 →
        lookupStorage k st2.storage = some v →
        interpretPrimitive (g + 1) (a0 :: rest) "load" .Void st = .ok v st2) := by
  refine ⟨?_, ?_, ?_, fun k2 h => ?_, fun a0 rest st2 h => ?_, fun a0 rest st2 h hl => ?_⟩
  · simp [interpret, interpretPrimitive, storeCall, interpretLiteral]
  · simp [interpret, interpretPrimitive, loadCall, interpretLiteral, lookupStorage]
  · simp [interpret, interpretPrimitive, storeCall, loadCall, interpretLiteral, lookupStorage]
  · simp [interpret, interpretPrimitive, loadCall, interpretLiteral, h]
  · simp [interpretPrimitive, h]
  · simp [interpretPrimitive, h, hl]

/-- Witness for C6: loading the absent key `b` from the empty store
soft-fails. -/
theorem store_load_roundtrip_witness :
    interpret 4 [] (loadCall "b") .Void st0 = .soft st0 :=
  (store_load_roundtrip 0 "a" (.Int 5) st0).2.2.2.1 "b" rfl

/-- Counterexample to claim C7 as stated: the claim maps every binary
operator label other than the five special ones to
`Call([L, R], Name(label))`, but the variable-declaration marker label is
a structural failure even when both children are convertible. -/
theorem convert_backslash_cex :
    convert (Node.Operator "\\" (Node.Primitive "a") (Node.Primitive "b")) = none
    ∧ convert (Node.Primitive "a") = some (AST.Primitive "a")
    ∧ convert (Node.Primitive "b") = some (AST.Primitive "b")
    ∧ (none : Option AST) ≠ some (AST.Method [AST.Primitive "a", AST.Primitive "b"]
        (AST.Primitive "\\")) :=
  ⟨rfl, rfl, rfl, fun h => Option.noConfusion h⟩

/-- Claim C7 (amended): for convertible children L and R, the Tree Adapter
maps `;` and `->` to Sequence(L, R), `<-` to Sequence(R, L), `|` to
Alternative(L, R), `.` to Call([L], R), and every other binary operator
label except the variable-declaration marker to Call([L, R], Name(label));
the marker with convertible children is a structural failure. -/
theorem convert_operator_mapping (n1 n2 : Node) (L R : AST)
    (h1 : convert n1 = some L) (h2 : convert n2 = some R) :
    convert (Node.Operator ";" n1 n2) = some (AST.Arrow L R)
    ∧ convert (Node.Operator "->" n1 n2) = some (AST.Arrow L R)
    ∧ convert (Node.Operator "<-" n1 n2) = some (AST.Arrow R L)
    ∧ convert (Node.Operator "|" n1 n2) = some (AST.Match L R)
    ∧ convert (Node.Operator "." n1 n2) = some (AST.Method [L] R)
    ∧ (∀ label, label ∉ ([";", "->", "<-", "|", ".", "\\"] : List String) →
        convert (Node.Operator label n1 n2) = some (AST.Method [L, R] (AST.Primitive label)))
    ∧ convert (Node.Operator "\\" n1 n2) = none := by
  refine ⟨?_, ?_, ?_, ?_, ?_, fun label hn => ?_, ?_⟩
  · simp [convert, h1, h2]
  · simp [convert, h1, h2]
  · simp [convert, h1, h2]
  · simp [convert, h1, h2]
  · simp [convert, h1, h2]
  · have he : ¬ label = "\\" := fun h => hn (by simp [h])
    simp only [convert, if_neg he, h1, h2]
    split
    all_goals simp_all
  · cases n1 with
    | Placeholder => simp [convert] at h1
    | Parentheses n => simp [convert]
    | Primitive l => simp [convert]
    | Operator l a b => simp [convert]

/-- Witness for C7: the arithmetic label `+` maps to a two-operand Call. -/
theorem convert_operator_mapping_witness :
    convert (Node.Operator "+" (Node.Primitive "x") (Node.Primitive "y"))
      = some (AST.Method [AST.Primitive "x", AST.Primitive "y"] (AST.Primitive "+")) :=
  (convert_operator_mapping (Node.Primitive "x") (Node.Primitive "y")
    (AST.Primitive "x") (AST.Primitive "y") rfl rfl).2.2.2.2.2.1 "+" (by decide)

/-- Claim C8: the `int` built-in passes an Integer stream through, parses a
Text stream as a signed 64-bit integer (yielding that Integer when the text
parses, soft-failing when it is malformed), and fatally faults on an Empty
stream. -/
theorem int_builtin_behavior (fuel : Nat) (args : List AST) (st : St) (i : Int)
    (txt : String) :
    interpretPrimitive (fuel + 1) args "int" (.Int i) st = .ok (.Int i) st
    ∧ (∀ j, parseI64 txt = some j →
        interpretPrimitive (fuel + 1) args "int" (.Str txt) st = .ok (.Int j) st)
    ∧ (parseI64 txt = none →
        interpretPrimitive (fuel + 1) args "int" (.Str txt) st = .soft st)
    ∧ interpretPrimitive (fuel + 1) args "int" .Void st = .fault := by
  refine ⟨?_, fun j h => ?_, fun h => ?_, ?_⟩
  · simp [interpretPrimitive]
  · simp [interpretPrimitive, h]
  · simp [interpretPrimitive, h]
  · simp [interpretPrimitive]

/-- Witness for C8: the text `42` parses and `int` yields Integer 42. -/
theorem int_builtin_behavior_witness :
    parseI64 "42" = some 42
    ∧ interpretPrimitive 1 [] "int" (.Str "42") st0 = .ok (.Int 42) st0 :=
  ⟨by decide, (int_builtin_behavior 0 [] st0 0 "42").2.1 42 (by decide)⟩

/-- Counterexample to claim C9 as stated: the claim says `input` removes
exactly the trailing line terminator and strips no other trailing
characters, but on the console line `abc \n` the code (Rust `trim_end`)
also removes the trailing space, returning `abc` instead of the claimed
`abc` followed by a space. -/
theorem input_trim_cex :
    interpretPrimitive 1 [] "input" .Void ⟨[], ["abc \n"], []⟩
      = .ok (.Str "abc") ⟨[], [], []⟩
    ∧ Res.ok (DataInterpreter.Str "abc") ⟨[], [], []⟩
      ≠ Res.ok (DataInterpreter.Str "abc ") ⟨[], [], []⟩ := by
  constructor <;> decide

/-- Claim C9 (amended): a non-Empty stream is a fatal fault for `input`;
with an Empty stream it consumes the next console line and returns Text
equal to that line with all trailing whitespace (including the line
terminator) removed; at end of input it returns empty Text. -/
theorem input_builtin_behavior (fuel : Nat) (args : List AST) (st : St) (i : Int)
    (s line : String) (rest : List String) :
    interpretPrimitive (fuel + 1) args "input" (.Int i) st = .fault
    ∧ interpretPrimitive (fuel + 1) args "input" (.Str s) st = .fault
    ∧ (st.stdin = line :: rest →
        interpretPrimitive (fuel + 1) args "input" .Void st
          = .ok (.Str (trimEnd line)) { st with stdin := rest })
    ∧ (st.stdin = [] → interpretPrimitive (fuel + 1) args "input" .Void st = .ok (.Str "") st) := by
  refine ⟨?_, ?_, fun h => ?_, fun h => ?_⟩
  · simp [interpretPrimitive]
  · simp [interpretPrimitive]
  · simp [interpretPrimitive, h]
  · simp [interpretPrimitive, h]

/-- Witness for C9: reading the line `xy` returns Text `xy` and consumes
the line. -/
theorem input_builtin_behavior_witness :
    interpretPrimitive 3 [] "input" .Void ⟨[], ["xy\n"], []⟩
      = .ok (.Str "xy") ⟨[], [], []⟩ := by
  have h := (input_builtin_behavior 2 [] ⟨[], ["xy\n"], []⟩ 0 "" "xy\n" []).2.2.1 rfl
  simpa using h

/-- Claim C10: `store` is the only operation that mutates the global store:
evaluating any tree that contains no `store` built-in (anywhere, operand
lists included) yields an outcome whose store, whenever the outcome carries
one, is exactly the input store.  In particular plain `load`, arithmetic,
comparisons, `pass`, `int`, `str`, `output`, `input` and Text literals
leave the store unchanged, and `load` only reads it. -/
theorem store_only_mutator (fuel : Nat) (args : List AST) (ast : AST)
    (s : DataInterpreter) (st : St) (h1 : noStore ast = true)
    (h2 : noStoreList args = true) :
    storagePreserved (interpret fuel args ast s st) st = true :=
  (preserve_main fuel).1 args ast s st h1 h2

/-- Witness for C10: a plain `load` expression leaves the store of the
resulting state exactly as it was. -/
theorem store_only_mutator_witness :
    noStore (loadCall "k") = true
    ∧ storagePreserved (interpret 5 [] (loadCall "k") .Void st0) st0 = true :=
  ⟨by decide, store_only_mutator 5 [] (loadCall "k") .Void st0 (by decide) rfl⟩
